import Mathlib

/-!
Verification of the Insight_Miner analysis pipeline (`nlp_pipeline.py`).

Texts are modelled as `List Char` (Python `str` over the ASCII fragment all
inputs here use).  The spaCy model is an optional function from text to a
parsed document; the article classifier is an optional labelling function
(`none` models a raised exception).  `run_analysis` returns `Except Unit
Report`: `.error ()` models an uncaught Python exception escaping the
function.
-/

/-- Python `\s` / `str.strip()` whitespace over ASCII. -/
def isWS (c : Char) : Bool :=
  c == ' ' || c == '\t' || c == '\n' || c == '\r' || c == '\x0b' || c == '\x0c'

/-- Python `str.strip()`: drop whitespace from both ends. -/
def stripChars (l : List Char) : List Char :=
  ((l.dropWhile isWS).reverse.dropWhile isWS).reverse

/-- Python `str.lower()` (ASCII). -/
def lowerL (l : List Char) : List Char :=
  l.map Char.toLower

/-- Python `str.replace "\n" " "` on a single-character needle. -/
def replaceNL (l : List Char) : List Char :=
  l.map (fun c => if c == '\n' then ' ' else c)

/-- Python substring test `needle in hay`. -/
def isSubstring (needle : List Char) : List Char → Bool
  | [] => needle.isEmpty
  | c :: cs => needle.isPrefixOf (c :: cs) || isSubstring needle cs

/-- Python `str.split()` with no separator, fuelled so that the recursion is
structural (each step consumes at least one character, so `fuel = length`
suffices; see `splitWS_cons`). -/
def splitWSAux : Nat → List Char → List (List Char)
  | 0, _ => []
  | _ + 1, [] => []
  | fuel + 1, c :: cs =>
    if isWS c then splitWSAux fuel cs
    else (c :: cs.takeWhile (fun d => !isWS d)) :: splitWSAux fuel (cs.dropWhile (fun d => !isWS d))

/-- Python `str.split()` with no separator: maximal non-whitespace runs. -/
def splitWS (l : List Char) : List (List Char) :=
  splitWSAux l.length l

/-- First-occurrence deduplication, keeping a `seen` accumulator.  Models both
`pandas.DataFrame.drop_duplicates()` (which keeps the first of each group of
equal rows) and the key order of `collections.Counter` (first-insertion
order). -/
def keepFirstAux {α : Type} [DecidableEq α] (seen : List α) : List α → List α
  | [] => []
  | x :: xs => if x ∈ seen then keepFirstAux seen xs else x :: keepFirstAux (x :: seen) xs

/-- First-occurrence deduplication. -/
def keepFirst {α : Type} [DecidableEq α] (l : List α) : List α :=
  keepFirstAux [] l

/-- Stable descending insertion by a numeric key: `x` is placed before the
first element whose key is `≤ key x`, i.e. after every strictly larger key. -/
def insertDesc {α : Type} (key : α → Nat) (x : α) : List α → List α
  | [] => [x]
  | y :: ys => if key x ≥ key y then x :: y :: ys else y :: insertDesc key x ys

/-- Stable sort by descending numeric key; for equal keys the input order is
kept.  Models CPython `sorted(..., reverse=True)` / `heapq.nlargest` as used
by `Counter.most_common`. -/
def sortDescBy {α : Type} (key : α → Nat) (l : List α) : List α :=
  l.foldr (insertDesc key) []

/-- One of the two value regexes of `FINANCIAL_METRICS`:
`valueClass` is the character class repeated by `+` right after the `\$`,
and `unitSuffix` records whether the regex continues with
`\s*(?:billion|million|trillion)?` (matched case-insensitively). -/
structure MetricPattern where
  valueClass : Char → Bool
  unitSuffix : Bool

/-- `r'\$[\d\.,]+\s*(?:billion|million|trillion)?'` -/
def patAmount : MetricPattern :=
  ⟨fun c => c.isDigit || c == '.' || c == ',', true⟩

/-- `r'\$[ \d\.,]+'` -/
def patEps : MetricPattern :=
  ⟨fun c => c == ' ' || c.isDigit || c == '.' || c == ',', false⟩

def unitWords : List (List Char) :=
  ["billion".toList, "million".toList, "trillion".toList]

/-- Case-insensitive attempt to read one of the unit words at the head of the
input; returns the consumed characters (original case) and the remainder. -/
def tryUnit (cs : List Char) : Option (List Char × List Char) :=
  match unitWords.find? (fun w => (cs.take w.length).map Char.toLower == w) with
  | some w => some (cs.take w.length, cs.drop w.length)
  | none => none

/-- Attempt to match the value regex at the head of the input, exactly as the
backtracking-free greedy reading of the two patterns above: `\$`, then the
longest nonempty run of `valueClass`, then (for `unitSuffix`) the longest
whitespace run followed by an optional unit word.  Returns the matched text
and the rest of the input. -/
def tryMatch (pat : MetricPattern) : List Char → Option (List Char × List Char)
  | [] => none
  | c :: cs =>
    if c == '$' then
      let r := cs.takeWhile pat.valueClass
      let rest := cs.dropWhile pat.valueClass
      if r.isEmpty then none
      else if pat.unitSuffix then
        let w := rest.takeWhile isWS
        let rest2 := rest.dropWhile isWS
        match tryUnit rest2 with
        | some (u, rest3) => some ('$' :: (r ++ w ++ u), rest3)
        | none => some ('$' :: (r ++ w), rest2)
      else some ('$' :: r, rest)
    else none

/-- `re.findall` scanning loop, fuelled so that the recursion is structural
(a successful match consumes at least the `'$'`, a failure advances one
position, so `fuel = length` suffices; see `findAll_cons`). -/
def findAllAux (pat : MetricPattern) : Nat → List Char → List (List Char)
  | 0, _ => []
  | _ + 1, [] => []
  | fuel + 1, c :: cs =>
    match tryMatch pat (c :: cs) with
    | some (m, rest) => m :: findAllAux pat fuel rest
    | none => findAllAux pat fuel cs

/-- Python `re.findall(pattern, text, re.IGNORECASE)` for the two metric
patterns: all non-overlapping matches, scanning left to right. -/
def findAll (pat : MetricPattern) (l : List Char) : List (List Char) :=
  findAllAux pat l.length l

/-! ## Data model: sentences, entities, documents (the spaCy adapter view) -/

/-- A tagged entity span: surface text plus spaCy label (`"ORG"`, `"PERSON"`,
`"GPE"`, ...).  Field `label_` matches the spaCy attribute name used by the
source. -/
structure Entity where
  text : List Char
  label_ : List Char
deriving DecidableEq

/-- A sentence of a parsed document: its text and the entities inside it. -/
structure Sentence where
  text : List Char
  ents : List Entity
deriving DecidableEq

/-- A parsed document: ordered sentences. -/
structure Doc where
  sents : List Sentence
deriving DecidableEq

/-- `doc.ents`: all entity spans of the document, in document order. -/
def docEnts (d : Doc) : List Entity :=
  (d.sents.map (fun s => s.ents)).flatten

/-- One entry of the `FINANCIAL_METRICS` dictionary. -/
structure FinancialMetricSpec where
  name : List Char
  keywords : List (List Char)
  pattern : MetricPattern

/-- The `FINANCIAL_METRICS` table of `nlp_pipeline.py`, in insertion order. -/
def FINANCIAL_METRICS : List FinancialMetricSpec :=
  [ ⟨"Revenue".toList, ["revenue".toList, "sales".toList], patAmount⟩
  , ⟨"Net Income".toList, ["net income".toList], patAmount⟩
  , ⟨"Operating Income".toList, ["operating income".toList], patAmount⟩
  , ⟨"Earnings Per Share".toList,
      ["earnings per share".toList, "diluted earnings per share".toList], patEps⟩ ]

/-- A row of the linker's output (`Company`, `Metric`, `Value`). -/
structure FinancialFact where
  company : List Char
  metric : List Char
  value : List Char
deriving DecidableEq

def orgLabel : List Char := "ORG".toList

def personLabel : List Char := "PERSON".toList

def gpeLabel : List Char := "GPE".toList

/-! ## Financial fact linker (`_heuristic_contextual_linker`) -/

/-- `[ent.text for ent in sent.ents if ent.label_ == 'ORG']` -/
def orgTexts (s : Sentence) : List (List Char) :=
  (s.ents.filter (fun e => e.label_ == orgLabel)).map (fun e => e.text)

/-- The hard-coded preferred-organization allow-list. -/
def preferredOrgNames : List (List Char) :=
  ["Microsoft".toList, "Apple".toList, "Google".toList, "Amazon".toList]

/-- `any(k in org for k in ['Microsoft', 'Apple', 'Google', 'Amazon'])` -/
def isKnownOrg (o : List Char) : Bool :=
  preferredOrgNames.any (fun k => isSubstring k o)

/-- The per-sentence update of `current_org`: a sentence with organization
mentions always overwrites it, preferring the first allow-listed mention and
otherwise the first mention; a sentence without organizations keeps it. -/
def chooseOrg (orgs : List (List Char)) (cur : Option (List Char)) : Option (List Char) :=
  match orgs with
  | [] => cur
  | o :: rest =>
    match (o :: rest).filter isKnownOrg with
    | k :: _ => some k
    | [] => some o

/-- Python truthiness of `current_org` in `if not current_org: continue`:
falsy when unset or the empty string. -/
def pyFalsyOrg : Option (List Char) → Bool
  | none => true
  | some s => s.isEmpty

/-- Candidate facts of one sentence given the active organization: for every
metric whose keyword occurs in the lowercased sentence, every pattern match
on the original-case text whose raw length exceeds 2 yields a fact with the
trimmed match as value. -/
def sentFacts (ms : List FinancialMetricSpec) (org : List Char) (s : Sentence) :
    List FinancialFact :=
  (ms.map (fun m =>
    if m.keywords.any (fun k => isSubstring k (lowerL s.text)) then
      (findAll m.pattern s.text).filterMap (fun v =>
        if 2 < v.length then some ⟨org, m.name, stripChars v⟩ else none)
    else [])).flatten

/-- One iteration of the linker's sentence loop. -/
def linkStep (ms : List FinancialMetricSpec)
    (st : Option (List Char) × List FinancialFact) (s : Sentence) :
    Option (List Char) × List FinancialFact :=
  let cur := chooseOrg (orgTexts s) st.1
  if pyFalsyOrg cur then (cur, st.2)
  else (cur, st.2 ++ sentFacts ms (cur.getD []) s)

/-- All candidate facts of a document, before deduplication. -/
def rawFacts (ms : List FinancialMetricSpec) (d : Doc) : List FinancialFact :=
  (d.sents.foldl (linkStep ms) (none, [])).2

/-- The linker's `current_org` after the sentence loop. -/
def linkerEndState (ms : List FinancialMetricSpec) (d : Doc) : Option (List Char) :=
  (d.sents.foldl (linkStep ms) (none, [])).1

/-- `_heuristic_contextual_linker`: candidate facts deduplicated by exact
equality of all three fields, first occurrence kept
(`DataFrame.drop_duplicates`). -/
def heuristic_contextual_linker (ms : List FinancialMetricSpec) (d : Doc) :
    List FinancialFact :=
  keepFirst (rawFacts ms d)

/-! ## Entity aggregation, summarization, classification, orchestration -/

/-- The stripped mention strings of one entity category, in document order. -/
def mentionStrings (d : Doc) (label : List Char) : List (List Char) :=
  ((docEnts d).filter (fun e => e.label_ == label)).map (fun e => stripChars e.text)

/-- `Counter(l).most_common(5)` keys: distinct strings in first-seen order,
stably sorted by descending count, first five. -/
def mostCommon5 (l : List (List Char)) : List (List Char) :=
  (sortDescBy (fun s => l.count s) (keepFirst l)).take 5

/-- One category of the entity aggregation stage. -/
def aggLabel (d : Doc) (label : List Char) : List (List Char) :=
  let l := mentionStrings d label
  if l.isEmpty then [] else (mostCommon5 l).map replaceNL

/-- The `entities` dict built by `run_analysis` (insertion order
ORG, PERSON, GPE); `none` is the `nlp is None` branch. -/
def entitiesStage (doc : Option Doc) : List (List Char × List (List Char)) :=
  match doc with
  | some d =>
    [ (orgLabel, aggLabel d orgLabel)
    , (personLabel, aggLabel d personLabel)
    , (gpeLabel, aggLabel d gpeLabel) ]
  | none => [(orgLabel, []), (personLabel, []), (gpeLabel, [])]

def dots3 : List Char := "...".toList

def couldNotSummary : List Char := "Could not generate summary.".toList

/-- The lightweight summarization block of `run_analysis`: first three
sentence texts of the 40,000-character prefix of the stripped text, joined by
single spaces; `text[:300] + '...'` when there are no sentences; the fixed
error string when the model is unavailable (its `RuntimeError` is caught by
the surrounding `except`). -/
def summaryStage (nlp : Option (List Char → Doc)) (text : List Char) : List Char :=
  match nlp with
  | none => couldNotSummary
  | some f =>
    let tts := (stripChars text).take 40000
    let ss := ((f tts).sents.take 3).map (fun s => stripChars s.text)
    if ss.isEmpty then tts.take 300 ++ dots3 else List.intercalate [' '] ss

/-- `" ".join(text.split()[:200])`: what the classifier is fed. -/
def classFeed (text : List Char) : List Char :=
  List.intercalate [' '] ((splitWS text).take 200)

def classFailed : List Char := "Classification Failed".toList

/-- The classification block: the classifier (`none` models a raised
prediction error, caught by the source) applied to the first 200
whitespace-delimited tokens of the original text. -/
def classifyStage (cl : List Char → Option (List Char)) (text : List Char) : List Char :=
  (cl (classFeed text)).getD classFailed

def errSentinel : List Char := "Error:".toList

/-- `not text or text.startswith("Error:") or len(text) < 150` -/
def guardBad (text : List Char) : Bool :=
  text.isEmpty || errSentinel.isPrefixOf text || decide (text.length < 150)

def naShort : List Char := "N/A".toList

def naSummary : List Char := "N/A - Could not process article text.".toList

/-- The dict returned by `run_analysis` (`raw_text` is present only in the
guard branch). -/
structure AnalysisReport where
  summary : List Char
  entities : List (List Char × List (List Char))
  article_type : List Char
  financial_facts : List FinancialFact
  raw_text : Option (List Char)
deriving DecidableEq

/-- `run_analysis`: the pipeline orchestrator.  `nlp` is the optional spaCy
model, `cl` the classifier (`none` = prediction raised).  `.error ()` models
an exception escaping `run_analysis`: with `nlp = None` and guard-passing
text the source calls `_heuristic_contextual_linker(None)`, which raises
`AttributeError` on `doc.sents`. -/
def run_analysis (nlp : Option (List Char → Doc)) (cl : List Char → Option (List Char))
    (text : List Char) : Except Unit AnalysisReport :=
  if guardBad text then
    .ok { summary := naSummary
        , entities := []
        , article_type := naShort
        , financial_facts := []
        , raw_text := some (if text.isEmpty then naShort else text.take 500 ++ dots3) }
  else
    let summary := summaryStage nlp text
    let doc := nlp.map (fun f => f (text.take 50000))
    let entities := entitiesStage doc
    let article_type := classifyStage cl text
    match doc with
    | none => .error ()
    | some d =>
      .ok { summary := summary
          , entities := entities
          , article_type := article_type
          , financial_facts := heuristic_contextual_linker FINANCIAL_METRICS d
          , raw_text := none }

/-! ## Concrete instances used to settle the claims -/

def emptyDoc : Doc := ⟨[]⟩

/-- A parse function returning an empty document (zero sentences). -/
def constEmptyParse : List Char → Doc := fun _ => emptyDoc

/-- A classifier whose prediction always raises. -/
def clNone : List Char → Option (List Char) := fun _ => none

/-- A classifier that always answers the label `"News"`. -/
def clNews : List Char → Option (List Char) := fun _ => some ("News".toList)

/-- A guard-passing text: 200 repetitions of `'a'`. -/
def aLong : List Char := List.replicate 200 'a'

/-- A classifier agreeing with `clNews` on the 200-token feed of `aLong` and
failing everywhere else. -/
def clNewsIfFeed : List Char → Option (List Char) :=
  fun s => if s == classFeed aLong then some ("News".toList) else none

def msSent1 : Sentence :=
  ⟨"Microsoft reported revenue of $56.5 billion.".toList,
   [⟨"Microsoft".toList, "ORG".toList⟩]⟩

def msSent2 : Sentence := ⟨"It also grew.".toList, []⟩

def msDoc : Doc := ⟨[msSent1, msSent2]⟩

def c4Doc : Doc :=
  ⟨[⟨"Apple revenue rose $5 overall".toList, [⟨"Apple".toList, "ORG".toList⟩]⟩]⟩

def c10Sent : Sentence :=
  ⟨"Apple reported revenue and net income of $3.5 billion.".toList,
   [⟨"Apple".toList, "ORG".toList⟩]⟩

def c10Doc : Doc := ⟨[c10Sent]⟩

def c6Doc : Doc :=
  ⟨[ ⟨"Apple Inc revenue was $9.5 billion and sales of $3 billion.".toList,
      [⟨"Apple Inc".toList, "ORG".toList⟩]⟩
   , ⟨"Apple Inc revenue was $9.5 billion.".toList,
      [⟨"Apple Inc".toList, "ORG".toList⟩]⟩ ]⟩

def factA : FinancialFact := ⟨"Apple Inc".toList, "Revenue".toList, "$9.5 billion".toList⟩

def factB : FinancialFact := ⟨"Apple Inc".toList, "Revenue".toList, "$3 billion".toList⟩

/-- Two ORG mentions that differ only by a newline versus a space. -/
def c8Doc : Doc :=
  ⟨[⟨"x".toList, [⟨['A', '\n', 'B'], "ORG".toList⟩, ⟨"A B".toList, "ORG".toList⟩]⟩]⟩

/-- Seven distinct ORG mentions with varying frequencies. -/
def freqDoc : Doc :=
  ⟨[⟨"x".toList,
     (["a", "b", "c", "a", "b", "a", "d", "e", "f", "g", "f", "f", "f"].map
       (fun t => ⟨t.toList, "ORG".toList⟩))⟩]⟩

def sentTwoOrgs : Sentence :=
  ⟨"Acme and Microsoft Corp rose.".toList,
   [⟨"Acme".toList, "ORG".toList⟩, ⟨"Microsoft Corp".toList, "ORG".toList⟩]⟩

def noOrgDoc : Doc := ⟨[⟨"Revenue was $5 billion.".toList, []⟩]⟩

/-- The report produced on `aLong` by an empty parse and a failing
classifier. -/
def reportEmptyParse : AnalysisReport :=
  ⟨aLong ++ dots3, [(orgLabel, []), (personLabel, []), (gpeLabel, [])], classFailed, [], none⟩

/-! ## Adequacy of the fuelled scanners -/

theorem tryMatch_length (pat : MetricPattern) (l m rest : List Char)
    (h : tryMatch pat l = some (m, rest)) : rest.length < l.length := by
  have hdw : ∀ (p : Char → Bool) (t : List Char), (t.dropWhile p).length ≤ t.length := by
    intro p t
    conv_rhs => rw [← List.takeWhile_append_dropWhile p t]
    rw [List.length_append]
    omega
  cases l with
  | nil => exact absurd h (by simp [tryMatch])
  | cons c cs =>
    have h3 := hdw pat.valueClass cs
    have h4 := hdw isWS (cs.dropWhile pat.valueClass)
    simp only [tryMatch] at h
    split at h
    · split at h
      · exact (Option.noConfusion h)
      · split at h
        · split at h
          · rename_i hu
            simp only [tryUnit] at hu
            split at hu
            · injection hu with hup
              injection hup with hu1 hu2
              injection h with hp
              injection hp with h1 h2
              subst h2
              subst hu2
              simp only [List.length_cons, List.length_drop]
              omega
            · exact (Option.noConfusion hu)
          · injection h with hp
            injection hp with h1 h2
            subst h2
            simp only [List.length_cons]
            omega
        · injection h with hp
          injection hp with h1 h2
          subst h2
          simp only [List.length_cons]
          omega
    · exact (Option.noConfusion h)

theorem findAllAux_fuel_irrel (pat : MetricPattern) :
    ∀ (fuel fuel' : Nat) (l : List Char), l.length ≤ fuel → l.length ≤ fuel' →
      findAllAux pat fuel l = findAllAux pat fuel' l := by
  intro fuel
  induction fuel with
  | zero =>
    intro fuel' l hl _
    have hnil : l = [] := List.length_eq_zero.1 (Nat.le_zero.1 hl)
    subst hnil
    cases fuel' <;> rfl
  | succ fuel ih =>
    intro fuel' l hl hl'
    cases l with
    | nil => cases fuel' <;> rfl
    | cons c cs =>
      cases fuel' with
      | zero => simp at hl'
      | succ fuel2 =>
        simp only [findAllAux]
        simp only [List.length_cons] at hl hl'
        cases h : tryMatch pat (c :: cs) with
        | some pr =>
          obtain ⟨m, rest⟩ := pr
          have hrest := tryMatch_length pat (c :: cs) m rest h
          simp only [List.length_cons] at hrest
          show m :: findAllAux pat fuel rest = m :: findAllAux pat fuel2 rest
          congr 1
          exact ih fuel2 rest (by omega) (by omega)
        | none =>
          show findAllAux pat fuel cs = findAllAux pat fuel2 cs
          exact ih fuel2 cs (by omega) (by omega)

/-- `findAll` satisfies the `re.findall` scanning recurrence: at each
position either a match is emitted and scanning resumes after it, or the
scanner advances one character. -/
theorem findAll_cons (pat : MetricPattern) (c : Char) (cs : List Char) :
    findAll pat (c :: cs) =
      match tryMatch pat (c :: cs) with
      | some (m, rest) => m :: findAll pat rest
      | none => findAll pat cs := by
  show findAllAux pat (c :: cs).length (c :: cs) = _
  simp only [List.length_cons, findAllAux]
  cases h : tryMatch pat (c :: cs) with
  | some pr =>
    obtain ⟨m, rest⟩ := pr
    have hrest := tryMatch_length pat (c :: cs) m rest h
    simp only [List.length_cons] at hrest
    show m :: findAllAux pat cs.length rest = m :: findAll pat rest
    unfold findAll
    congr 1
    exact findAllAux_fuel_irrel pat cs.length rest.length rest (by omega) (by omega)
  | none => rfl

theorem splitWSAux_fuel_irrel :
    ∀ (fuel fuel' : Nat) (l : List Char), l.length ≤ fuel → l.length ≤ fuel' →
      splitWSAux fuel l = splitWSAux fuel' l := by
  intro fuel
  induction fuel with
  | zero =>
    intro fuel' l hl _
    have hnil : l = [] := List.length_eq_zero.1 (Nat.le_zero.1 hl)
    subst hnil
    cases fuel' <;> rfl
  | succ fuel ih =>
    intro fuel' l hl hl'
    cases l with
    | nil => cases fuel' <;> rfl
    | cons c cs =>
      cases fuel' with
      | zero => simp at hl'
      | succ fuel2 =>
        have hdw : (cs.dropWhile (fun d => !isWS d)).length ≤ cs.length := by
          conv_rhs => rw [← List.takeWhile_append_dropWhile (fun d => !isWS d) cs]
          rw [List.length_append]
          omega
        simp only [splitWSAux]
        simp only [List.length_cons] at hl hl'
        split
        · exact ih fuel2 cs (by omega) (by omega)
        · congr 1
          exact ih fuel2 (cs.dropWhile (fun d => !isWS d)) (by omega) (by omega)

/-- `splitWS` satisfies the `str.split()` recurrence: leading whitespace is
skipped, otherwise the maximal non-whitespace run is one token. -/
theorem splitWS_cons (c : Char) (cs : List Char) :
    splitWS (c :: cs) =
      if isWS c then splitWS cs
      else (c :: cs.takeWhile (fun d => !isWS d)) :: splitWS (cs.dropWhile (fun d => !isWS d)) := by
  have hdw : (cs.dropWhile (fun d => !isWS d)).length ≤ cs.length := by
    conv_rhs => rw [← List.takeWhile_append_dropWhile (fun d => !isWS d) cs]
    rw [List.length_append]
    omega
  show splitWSAux (c :: cs).length (c :: cs) = _
  simp only [List.length_cons, splitWSAux]
  split
  · rfl
  · unfold splitWS
    congr 1
    exact splitWSAux_fuel_irrel cs.length _ _ (by omega) (by omega)

/-! ## Lemmas about first-occurrence deduplication -/

theorem mem_keepFirstAux {α : Type} [DecidableEq α] (a : α) (l : List α) :
    ∀ seen : List α, a ∈ keepFirstAux seen l ↔ a ∈ l ∧ a ∉ seen := by
  induction l with
  | nil => intro seen; simp [keepFirstAux]
  | cons x xs ih =>
    intro seen
    simp only [keepFirstAux]
    by_cases hx : x ∈ seen
    · rw [if_pos hx, ih seen, List.mem_cons]
      constructor
      · rintro ⟨h1, h2⟩
        exact ⟨Or.inr h1, h2⟩
      · rintro ⟨h1 | h1, h2⟩
        · exact absurd (h1 ▸ hx) h2
        · exact ⟨h1, h2⟩
    · rw [if_neg hx, List.mem_cons, List.mem_cons, ih (x :: seen)]
      by_cases hax : a = x
      · subst hax
        simp [hx]
      · simp [hax]

theorem nodup_keepFirstAux {α : Type} [DecidableEq α] (l : List α) :
    ∀ seen : List α, (keepFirstAux seen l).Nodup := by
  induction l with
  | nil => intro _; simp [keepFirstAux]
  | cons x xs ih =>
    intro seen
    simp only [keepFirstAux]
    split
    · exact ih seen
    · refine List.nodup_cons.2 ⟨fun hmem => ?_, ih (x :: seen)⟩
      exact ((mem_keepFirstAux x xs (x :: seen)).1 hmem).2 (List.mem_cons_self x seen)

theorem keepFirstAux_sublist {α : Type} [DecidableEq α] (l : List α) :
    ∀ seen : List α, List.Sublist (keepFirstAux seen l) l := by
  induction l with
  | nil => intro _; simp [keepFirstAux]
  | cons x xs ih =>
    intro seen
    simp only [keepFirstAux]
    split
    · exact (ih seen).trans (List.sublist_cons_self x xs)
    · exact (ih (x :: seen)).cons₂ x

theorem indexOf_keepFirstAux {α : Type} [DecidableEq α] (l : List α) :
    ∀ (seen : List α) (a b : α), a ∈ keepFirstAux seen l → b ∈ keepFirstAux seen l →
      ((keepFirstAux seen l).indexOf a ≤ (keepFirstAux seen l).indexOf b ↔
        l.indexOf a ≤ l.indexOf b) := by
  induction l with
  | nil =>
    intro seen a b ha _
    simp [keepFirstAux] at ha
  | cons x xs ih =>
    intro seen a b ha hb
    simp only [keepFirstAux] at ha hb ⊢
    by_cases hx : x ∈ seen
    · rw [if_pos hx] at ha hb ⊢
      have hax : a ≠ x := fun h => ((mem_keepFirstAux a xs seen).1 ha).2 (h ▸ hx)
      have hbx : b ≠ x := fun h => ((mem_keepFirstAux b xs seen).1 hb).2 (h ▸ hx)
      rw [List.indexOf_cons_ne xs (Ne.symm hax), List.indexOf_cons_ne xs (Ne.symm hbx),
        Nat.succ_le_succ_iff]
      exact ih seen a b ha hb
    · rw [if_neg hx] at ha hb ⊢
      by_cases hax : a = x
      · subst hax
        rw [List.indexOf_cons_self, List.indexOf_cons_self]
        simp [Nat.zero_le]
      · have ha' : a ∈ keepFirstAux (x :: seen) xs := by
          rcases List.mem_cons.1 ha with h | h
          · exact absurd h hax
          · exact h
        by_cases hbx : b = x
        · subst hbx
          rw [List.indexOf_cons_self, List.indexOf_cons_self,
            List.indexOf_cons_ne (keepFirstAux (b :: seen) xs) (Ne.symm hax),
            List.indexOf_cons_ne xs (Ne.symm hax)]
          constructor
          · intro h
            exact absurd h (Nat.not_succ_le_zero _)
          · intro h
            exact absurd h (Nat.not_succ_le_zero _)
        · have hb' : b ∈ keepFirstAux (x :: seen) xs := by
            rcases List.mem_cons.1 hb with h | h
            · exact absurd h hbx
            · exact h
          rw [List.indexOf_cons_ne (keepFirstAux (x :: seen) xs) (Ne.symm hax),
            List.indexOf_cons_ne (keepFirstAux (x :: seen) xs) (Ne.symm hbx),
            List.indexOf_cons_ne xs (Ne.symm hax), List.indexOf_cons_ne xs (Ne.symm hbx),
            Nat.succ_le_succ_iff, Nat.succ_le_succ_iff]
          exact ih (x :: seen) a b ha' hb'

theorem keepFirst_mem {α : Type} [DecidableEq α] {a : α} {l : List α} :
    a ∈ keepFirst l ↔ a ∈ l := by
  rw [keepFirst, mem_keepFirstAux a l []]
  simp

theorem keepFirst_nodup {α : Type} [DecidableEq α] (l : List α) : (keepFirst l).Nodup :=
  nodup_keepFirstAux l []

theorem keepFirst_sublist {α : Type} [DecidableEq α] (l : List α) : List.Sublist (keepFirst l) l :=
  keepFirstAux_sublist l []

theorem keepFirst_indexOf {α : Type} [DecidableEq α] {a b : α} {l : List α}
    (ha : a ∈ keepFirst l) (hb : b ∈ keepFirst l) :
    ((keepFirst l).indexOf a ≤ (keepFirst l).indexOf b ↔ l.indexOf a ≤ l.indexOf b) :=
  indexOf_keepFirstAux l [] a b ha hb

/-! ## Lemmas about the stable descending sort -/

theorem mem_insertDesc {α : Type} (key : α → Nat) (x a : α) (s : List α) :
    a ∈ insertDesc key x s ↔ a = x ∨ a ∈ s := by
  induction s with
  | nil => simp [insertDesc]
  | cons y ys ih =>
    simp only [insertDesc]
    split
    · simp [List.mem_cons]
    · simp only [List.mem_cons, ih]
      tauto

theorem perm_insertDesc {α : Type} (key : α → Nat) (x : α) (s : List α) :
    (insertDesc key x s).Perm (x :: s) := by
  induction s with
  | nil => simp [insertDesc]
  | cons y ys ih =>
    simp only [insertDesc]
    split
    · exact List.Perm.refl _
    · exact (List.Perm.cons y ih).trans (List.Perm.swap x y ys)

theorem pairwise_insertDesc {α : Type} (key : α → Nat) (x : α) (s : List α)
    (hp : s.Pairwise (fun a b => key b ≤ key a)) :
    (insertDesc key x s).Pairwise (fun a b => key b ≤ key a) := by
  induction s with
  | nil => simp [insertDesc]
  | cons y ys ih =>
    rw [List.pairwise_cons] at hp
    obtain ⟨hy, hys⟩ := hp
    simp only [insertDesc]
    split
    · rename_i hxy
      rw [List.pairwise_cons]
      refine ⟨?_, List.pairwise_cons.2 ⟨hy, hys⟩⟩
      intro z hz
      rcases List.mem_cons.1 hz with h | h
      · exact h ▸ hxy
      · exact le_trans (hy z h) hxy
    · rename_i hxy
      rw [List.pairwise_cons]
      refine ⟨?_, ih hys⟩
      intro z hz
      rcases (mem_insertDesc key x z ys).1 hz with h | h
      · subst h
        omega
      · exact hy z h

theorem filter_insertDesc {α : Type} (key : α → Nat) (x : α) (c : Nat) (s : List α) :
    (insertDesc key x s).filter (fun a => key a == c) =
      (if key x == c then x :: s.filter (fun a => key a == c)
       else s.filter (fun a => key a == c)) := by
  induction s with
  | nil => simp [insertDesc, List.filter_cons]
  | cons y ys ih =>
    simp only [insertDesc]
    split
    · rw [List.filter_cons]
    · rename_i hxy
      rw [List.filter_cons, ih, List.filter_cons]
      by_cases hxc : key x = c
      · have hyc : ¬ key y = c := by omega
        simp [hxc, hyc]
      · by_cases hyc : key y = c
        · simp [hxc, hyc]
        · simp [hxc, hyc]

theorem sortDescBy_perm {α : Type} (key : α → Nat) (l : List α) :
    (sortDescBy key l).Perm l := by
  induction l with
  | nil => exact List.Perm.refl _
  | cons x xs ih => exact (perm_insertDesc key x (sortDescBy key xs)).trans (List.Perm.cons x ih)

theorem sortDescBy_pairwise {α : Type} (key : α → Nat) (l : List α) :
    (sortDescBy key l).Pairwise (fun a b => key b ≤ key a) := by
  induction l with
  | nil => simp [sortDescBy]
  | cons x xs ih => exact pairwise_insertDesc key x _ ih

theorem sortDescBy_filter {α : Type} (key : α → Nat) (c : Nat) (l : List α) :
    (sortDescBy key l).filter (fun a => key a == c) = l.filter (fun a => key a == c) := by
  induction l with
  | nil => rfl
  | cons x xs ih =>
    show (insertDesc key x (sortDescBy key xs)).filter _ = _
    rw [filter_insertDesc, ih, List.filter_cons]

/-! ## Lemmas about the linker -/

theorem chooseOrg_cons (o : List Char) (rest : List (List Char)) (cur : Option (List Char)) :
    chooseOrg (o :: rest) cur = some (((o :: rest).find? isKnownOrg).getD o) := by
  have hh : (o :: rest).find? isKnownOrg = ((o :: rest).filter isKnownOrg).head? :=
    (List.filter_head? isKnownOrg (o :: rest)).symm
  simp only [chooseOrg]
  cases h : (o :: rest).filter isKnownOrg with
  | nil =>
    rw [h] at hh
    rw [hh]
    rfl
  | cons k ks =>
    rw [h] at hh
    rw [hh]
    rfl

theorem mem_sentFacts_iff (ms : List FinancialMetricSpec) (org : List Char) (s : Sentence)
    (f : FinancialFact) :
    f ∈ sentFacts ms org s ↔
      ∃ m ∈ ms, (m.keywords.any (fun k => isSubstring k (lowerL s.text))) = true ∧
        ∃ v ∈ findAll m.pattern s.text, 2 < v.length ∧ f = ⟨org, m.name, stripChars v⟩ := by
  simp only [sentFacts, List.mem_flatten, List.mem_map]
  constructor
  · rintro ⟨l, ⟨m, hm, rfl⟩, hf⟩
    by_cases hkw : (m.keywords.any (fun k => isSubstring k (lowerL s.text))) = true
    · rw [if_pos hkw, List.mem_filterMap] at hf
      obtain ⟨v, hv, hveq⟩ := hf
      rw [Option.ite_none_right_eq_some] at hveq
      obtain ⟨hlen, hfeq⟩ := hveq
      injection hfeq with hfeq
      exact ⟨m, hm, hkw, v, hv, hlen, hfeq.symm⟩
    · rw [if_neg hkw] at hf
      simp at hf
  · rintro ⟨m, hm, hkw, v, hv, hlen, rfl⟩
    refine ⟨_, ⟨m, hm, rfl⟩, ?_⟩
    rw [if_pos hkw, List.mem_filterMap]
    exact ⟨v, hv, by rw [if_pos hlen]⟩

theorem foldl_linkStep_no_orgs (ms : List FinancialMetricSpec) (l : List Sentence) :
    ∀ fs : List FinancialFact, (∀ s ∈ l, orgTexts s = []) →
      l.foldl (linkStep ms) (none, fs) = (none, fs) := by
  induction l with
  | nil => intro fs _; rfl
  | cons s rest ih =>
    intro fs h
    have hs : orgTexts s = [] := h s (List.mem_cons_self s rest)
    have hstep : linkStep ms (none, fs) s = (none, fs) := by
      simp only [linkStep, hs, chooseOrg]
      rfl
    rw [List.foldl_cons, hstep]
    exact ih fs (fun s' hs' => h s' (List.mem_cons_of_mem _ hs'))

/-! ## Claims -/

set_option maxRecDepth 8000 in
/-- Claim C1 (code bug): with the sentence/entity model unavailable and a
guard-passing text, `run_analysis` does not catch the failure at the fact
linker's boundary: it calls `_heuristic_contextual_linker(None)`, which
raises (`.error ()`), so `analyze` raises to its caller instead of returning
a degraded report. -/
theorem claim_c1_model_unavailable_raises :
    run_analysis none clNone aLong = Except.error () := by
  rfl

/-- Claim C2 counterexample: on a too-short input the returned report's
entity map is the empty dict (no `'ORG'` key at all, contrary to "all 3
category keys present") and its summary is a longer fixed string, not
`"N/A"`. -/
theorem claim_c2_counterexample :
    (run_analysis none clNone ("tiny".toList)).toOption.map
        (fun r => (List.lookup orgLabel r.entities, r.summary)) =
      some (none, naSummary) ∧ naSummary ≠ naShort := by
  constructor
  · rfl
  · decide

/-- Claim C2 (amended): for absent text, text with the `"Error:"` sentinel
prefix, or text shorter than 150 characters, `run_analysis` returns
immediately — for every model and classifier — a degraded report whose
summary is the fixed string `"N/A - Could not process article text."`, whose
entity map is entirely empty (no category keys), whose article category is
`"N/A"`, whose fact list is empty, and whose raw excerpt is the first 500
characters of the text followed by `"..."` (or `"N/A"` when the text is
empty). -/
theorem claim_c2_guard (nlp : Option (List Char → Doc)) (cl : List Char → Option (List Char))
    (text : List Char) (h : guardBad text = true) :
    run_analysis nlp cl text =
      Except.ok ⟨naSummary, [], naShort, [],
        some (if text.isEmpty then naShort else text.take 500 ++ dots3)⟩ := by
  simp only [run_analysis, h, if_true]

/-- Witness for C2's amended guard theorem at the concrete input `"hi"`. -/
theorem claim_c2_guard_witness :
    run_analysis none clNone ("hi".toList) =
      Except.ok ⟨naSummary, [], naShort, [],
        some (if ("hi".toList).isEmpty then naShort
              else ("hi".toList).take 500 ++ dots3)⟩ :=
  claim_c2_guard none clNone ("hi".toList) (by decide)

/-- Claim C4 counterexample: the length test precedes trimming, so the match
`"$5 "` (raw length 3) is accepted and the linker emits a fact whose trimmed
value `"$5"` has length 2 — the claim says such facts are rejected. -/
theorem claim_c4_counterexample :
    heuristic_contextual_linker FINANCIAL_METRICS c4Doc =
        [⟨"Apple".toList, "Revenue".toList, "$5".toList⟩] ∧
    ("$5".toList).length ≤ 2 := by
  constructor
  · rfl
  · decide

/-- Claim C4 (amended): for a sentence with active organization `org`, the
candidate facts are exactly those `(org, metricName, trimmedMatch)` where the
metric's keyword occurs in the lowercased sentence text and the match of its
value pattern on the original-case text has *raw* (untrimmed) length greater
than 2; the value stored is the trimmed match text. -/
theorem claim_c4_linker_emission (ms : List FinancialMetricSpec) (org : List Char)
    (s : Sentence) (f : FinancialFact) :
    f ∈ sentFacts ms org s ↔
      ∃ m ∈ ms, (m.keywords.any (fun k => isSubstring k (lowerL s.text))) = true ∧
        ∃ v ∈ findAll m.pattern s.text, 2 < v.length ∧ f = ⟨org, m.name, stripChars v⟩ :=
  mem_sentFacts_iff ms org s f

/-- Claim C7: on the two documented sentences the linker outputs exactly the
fact (Microsoft, Revenue, $56.5 billion); the second sentence contributes
nothing and leaves the active organization set to Microsoft. -/
theorem claim_c7_microsoft_example :
    heuristic_contextual_linker FINANCIAL_METRICS msDoc =
        [⟨"Microsoft".toList, "Revenue".toList, "$56.5 billion".toList⟩] ∧
    linkerEndState FINANCIAL_METRICS msDoc = some ("Microsoft".toList) := by
  exact ⟨rfl, rfl⟩

/-- Claim C3 counterexample: with the sentence/entity model unavailable, the
summarizer returns the fixed error string rather than the claimed
300-character-plus-ellipsis fallback, and that string does not end with the
ellipsis marker. -/
theorem claim_c3_counterexample :
    summaryStage none aLong = couldNotSummary ∧
    couldNotSummary ≠ ((stripChars aLong).take 40000).take 300 ++ dots3 ∧
    couldNotSummary.drop 24 ≠ dots3 := by
  refine ⟨rfl, by decide, by decide⟩

/-- Claim C3 (amended): when the model is available but segmentation yields
zero sentences, the summarizer falls back to the first 300 characters of the
(stripped) truncated text followed by `"..."`, so the result ends in the
ellipsis marker and is at most 304 characters long; when the model is
unavailable its `RuntimeError` is treated like any internal error and the
fixed string `"Could not generate summary."` is returned.  The summarizer's
output is the `summary` field of any report `run_analysis` returns on
guard-passing text. -/
theorem claim_c3_summarizer :
    (∀ (f : List Char → Doc) (text : List Char),
        (f ((stripChars text).take 40000)).sents = [] →
        summaryStage (some f) text = ((stripChars text).take 40000).take 300 ++ dots3 ∧
        (∃ p, summaryStage (some f) text = p ++ dots3) ∧
        (summaryStage (some f) text).length ≤ 304) ∧
    (∀ text, summaryStage none text = couldNotSummary) ∧
    (∀ (f : List Char → Doc) (cl : List Char → Option (List Char)) (text : List Char)
        (r : AnalysisReport), guardBad text = false →
        run_analysis (some f) cl text = Except.ok r →
        r.summary = summaryStage (some f) text) := by
  refine ⟨?_, fun _ => rfl, ?_⟩
  · intro f text h
    have he : summaryStage (some f) text = ((stripChars text).take 40000).take 300 ++ dots3 := by
      simp [summaryStage, h]
    refine ⟨he, ⟨_, he⟩, ?_⟩
    rw [he, List.length_append]
    have h1 : (((stripChars text).take 40000).take 300).length ≤ 300 :=
      List.length_take_le 300 _
    have h2 : dots3.length = 3 := rfl
    omega
  · intro f cl text r hg hok
    simp only [run_analysis, hg, Bool.false_eq_true, if_false, Option.map] at hok
    injection hok with hok
    subst hok
    rfl

set_option maxRecDepth 8000 in
/-- Witness for C3's amended summarizer theorem: an empty parse on a short
text gives the ellipsis fallback, and on `aLong` the returned report's
summary field is the summarizer's output. -/
theorem claim_c3_summarizer_witness :
    summaryStage (some constEmptyParse) ("abc".toList) =
        ((stripChars ("abc".toList)).take 40000).take 300 ++ dots3 ∧
    summaryStage none ("abc".toList) = couldNotSummary ∧
    reportEmptyParse.summary = summaryStage (some constEmptyParse) aLong :=
  ⟨(claim_c3_summarizer.1 constEmptyParse ("abc".toList) rfl).1,
   claim_c3_summarizer.2.1 ("abc".toList),
   claim_c3_summarizer.2.2 constEmptyParse clNone aLong reportEmptyParse (by decide) (by rfl)⟩

/-- Claim C5: the linker's active organization over one pass in document
order: a sentence with no organization mention leaves the state unchanged; a
sentence with organization mentions always overwrites it with the first
allow-listed mention if any, else the first mention; and if no sentence
mentions an organization, the linker returns the empty list and the state
stays unset. -/
theorem claim_c5_org_tracking :
    (∀ (ms : List FinancialMetricSpec) (st : Option (List Char) × List FinancialFact)
        (s : Sentence), orgTexts s = [] → (linkStep ms st s).1 = st.1) ∧
    (∀ (ms : List FinancialMetricSpec) (st : Option (List Char) × List FinancialFact)
        (s : Sentence) (o : List Char) (rest : List (List Char)),
        orgTexts s = o :: rest →
        (linkStep ms st s).1 = some (((o :: rest).find? isKnownOrg).getD o)) ∧
    (∀ (ms : List FinancialMetricSpec) (d : Doc), (∀ s ∈ d.sents, orgTexts s = []) →
        heuristic_contextual_linker ms d = [] ∧ linkerEndState ms d = none) := by
  refine ⟨?_, ?_, ?_⟩
  · intro ms st s h
    simp only [linkStep, h, chooseOrg]
    split <;> rfl
  · intro ms st s o rest h
    simp only [linkStep, h, chooseOrg_cons]
    split <;> rfl
  · intro ms d h
    have hfold := foldl_linkStep_no_orgs ms d.sents [] h
    constructor
    · show keepFirst (d.sents.foldl (linkStep ms) (none, [])).2 = []
      rw [hfold]
      rfl
    · show (d.sents.foldl (linkStep ms) (none, [])).1 = none
      rw [hfold]

/-- Witness for C5 at concrete sentences: an organization-free sentence
keeps the carried state; a sentence mentioning Acme then Microsoft Corp
overwrites with the allow-listed Microsoft Corp; a document that never
mentions an organization yields no facts. -/
theorem claim_c5_org_tracking_witness :
    (linkStep FINANCIAL_METRICS (some ("Zeta Corp".toList), []) msSent2).1 =
        some ("Zeta Corp".toList) ∧
    (linkStep FINANCIAL_METRICS (none, []) sentTwoOrgs).1 =
        some (((["Acme".toList, "Microsoft Corp".toList]).find? isKnownOrg).getD
          ("Acme".toList)) ∧
    (["Acme".toList, "Microsoft Corp".toList]).find? isKnownOrg =
        some ("Microsoft Corp".toList) ∧
    heuristic_contextual_linker FINANCIAL_METRICS noOrgDoc = [] :=
  ⟨claim_c5_org_tracking.1 FINANCIAL_METRICS (some ("Zeta Corp".toList), []) msSent2 rfl,
   claim_c5_org_tracking.2.1 FINANCIAL_METRICS (none, []) sentTwoOrgs
     ("Acme".toList) (["Microsoft Corp".toList]) rfl,
   by decide,
   (claim_c5_org_tracking.2.2 FINANCIAL_METRICS noOrgDoc (by decide)).1⟩

/-- Claim C6: the linker's output is the candidate list deduplicated by
exact equality of all three fields: it contains no duplicates, is a sublist
of the candidates (so surviving facts keep their relative order), has the
same members, is empty when there are no candidates, and orders survivors by
their first occurrence among the candidates. -/
theorem claim_c6_dedup (d : Doc) :
    (heuristic_contextual_linker FINANCIAL_METRICS d).Nodup ∧
    List.Sublist (heuristic_contextual_linker FINANCIAL_METRICS d)
      (rawFacts FINANCIAL_METRICS d) ∧
    (∀ f, f ∈ heuristic_contextual_linker FINANCIAL_METRICS d ↔
        f ∈ rawFacts FINANCIAL_METRICS d) ∧
    (rawFacts FINANCIAL_METRICS d = [] → heuristic_contextual_linker FINANCIAL_METRICS d = []) ∧
    (∀ f g, f ∈ heuristic_contextual_linker FINANCIAL_METRICS d →
        g ∈ heuristic_contextual_linker FINANCIAL_METRICS d →
        ((heuristic_contextual_linker FINANCIAL_METRICS d).indexOf f ≤
            (heuristic_contextual_linker FINANCIAL_METRICS d).indexOf g ↔
          (rawFacts FINANCIAL_METRICS d).indexOf f ≤
            (rawFacts FINANCIAL_METRICS d).indexOf g)) := by
  refine ⟨keepFirst_nodup _, keepFirst_sublist _, fun f => keepFirst_mem, ?_, ?_⟩
  · intro h
    show keepFirst (rawFacts FINANCIAL_METRICS d) = []
    rw [h]
    rfl
  · intro f g hf hg
    exact keepFirst_indexOf hf hg

/-- Witness for C6 on a document whose two sentences produce the duplicate
candidate list `[factA, factB, factA]`: the output is duplicate-free, the
empty document gives the empty list, and factA (first seen first) stays
before factB. -/
theorem claim_c6_dedup_witness :
    (heuristic_contextual_linker FINANCIAL_METRICS c6Doc).Nodup ∧
    heuristic_contextual_linker FINANCIAL_METRICS emptyDoc = [] ∧
    ((heuristic_contextual_linker FINANCIAL_METRICS c6Doc).indexOf factA ≤
        (heuristic_contextual_linker FINANCIAL_METRICS c6Doc).indexOf factB ↔
      (rawFacts FINANCIAL_METRICS c6Doc).indexOf factA ≤
        (rawFacts FINANCIAL_METRICS c6Doc).indexOf factB) ∧
    rawFacts FINANCIAL_METRICS c6Doc = [factA, factB, factA] ∧
    heuristic_contextual_linker FINANCIAL_METRICS c6Doc = [factA, factB] :=
  ⟨(claim_c6_dedup c6Doc).1,
   (claim_c6_dedup emptyDoc).2.2.2.1 rfl,
   (claim_c6_dedup c6Doc).2.2.2.2 factA factB (by decide) (by decide),
   by decide,
   by decide⟩

/-- Claim C8 counterexample: two ORG mentions differing only by a newline
versus a space are counted as distinct strings and only normalized *after*
selection, so the aggregated list contains the same string twice — contrary
to "with no duplicate strings". -/
theorem claim_c8_counterexample :
    aggLabel c8Doc orgLabel = ["A B".toList, "A B".toList] ∧
    ¬ (aggLabel c8Doc orgLabel).Nodup := by
  exact ⟨by decide, by decide⟩

/-- Claim C8 (amended): per category the aggregator returns at most the 5
most frequent distinct *stripped, pre-normalization* mention strings,
ordered by descending frequency with ties in first-seen order (the stable
sort keeps, for each frequency, the first-seen order), and then maps
newlines to spaces — which may merge two selected mentions into equal output
strings; a category with zero mentions maps to `[]`, and all three category
keys are always present, also when the entity model is unavailable. -/
theorem claim_c8_aggregator (d : Doc) (label : List Char) :
    (aggLabel d label).length ≤ 5 ∧
    aggLabel d label = (mostCommon5 (mentionStrings d label)).map replaceNL ∧
    (mostCommon5 (mentionStrings d label)).Nodup ∧
    (mostCommon5 (mentionStrings d label)).Pairwise
      (fun a b => (mentionStrings d label).count b ≤ (mentionStrings d label).count a) ∧
    (∀ c : Nat,
      (sortDescBy (fun t => (mentionStrings d label).count t)
          (keepFirst (mentionStrings d label))).filter
            (fun t => (mentionStrings d label).count t == c) =
        (keepFirst (mentionStrings d label)).filter
          (fun t => (mentionStrings d label).count t == c)) ∧
    (mentionStrings d label = [] → aggLabel d label = []) ∧
    ((entitiesStage (some d)).map Prod.fst = [orgLabel, personLabel, gpeLabel] ∧
      entitiesStage none = [(orgLabel, []), (personLabel, []), (gpeLabel, [])]) := by
  refine ⟨?_, ?_, ?_, ?_, ?_, ?_, rfl, rfl⟩
  · simp only [aggLabel]
    split
    · simp
    · simp only [List.length_map, mostCommon5]
      exact List.length_take_le 5 _
  · simp only [aggLabel]
    split
    · rename_i h
      rw [List.isEmpty_iff] at h
      rw [h]
      rfl
    · rfl
  · exact List.Nodup.sublist (List.take_sublist 5 _)
      (((sortDescBy_perm _ _).nodup_iff).2 (keepFirst_nodup _))
  · exact List.Pairwise.sublist (List.take_sublist 5 _) (sortDescBy_pairwise _ _)
  · intro c
    exact sortDescBy_filter _ c _
  · intro h
    simp [aggLabel, h]

/-- Witness for C8's amended theorem: an empty category yields `[]`, and on
seven distinct ORG mentions with varying frequencies the result has at most
five entries, no duplicates, and descending-frequency order with first-seen
tie-breaking. -/
theorem claim_c8_aggregator_witness :
    aggLabel emptyDoc orgLabel = [] ∧
    (aggLabel freqDoc orgLabel).length ≤ 5 ∧
    (mostCommon5 (mentionStrings freqDoc orgLabel)).Nodup ∧
    aggLabel freqDoc orgLabel =
      ["f".toList, "a".toList, "b".toList, "c".toList, "d".toList] :=
  ⟨(claim_c8_aggregator emptyDoc orgLabel).2.2.2.2.2.1 rfl,
   (claim_c8_aggregator freqDoc orgLabel).1,
   (claim_c8_aggregator freqDoc orgLabel).2.2.1,
   by decide⟩

/-- Claim C9: the report depends on the classifier only through its value on
the first 200 whitespace-delimited tokens of the original text, and a
classifier failure yields the fixed label `"Classification Failed"` while
the summary, entity and fact fields are still the other stages' outputs. -/
theorem claim_c9_classifier :
    (∀ (nlp : Option (List Char → Doc)) (cl cl' : List Char → Option (List Char))
        (text : List Char), cl (classFeed text) = cl' (classFeed text) →
        run_analysis nlp cl text = run_analysis nlp cl' text) ∧
    (∀ (f : List Char → Doc) (cl : List Char → Option (List Char)) (text : List Char),
        guardBad text = false → cl (classFeed text) = none →
        run_analysis (some f) cl text =
          Except.ok ⟨summaryStage (some f) text,
            entitiesStage (some (f (text.take 50000))), classFailed,
            heuristic_contextual_linker FINANCIAL_METRICS (f (text.take 50000)), none⟩) := by
  constructor
  · intro nlp cl cl' text h
    simp only [run_analysis, classifyStage, h]
  · intro f cl text hg hcl
    simp only [run_analysis, hg, Bool.false_eq_true, if_false, classifyStage, hcl,
      Option.getD, Option.map]

set_option maxRecDepth 8000 in
/-- Witness for C9: two classifiers agreeing on the 200-token feed give the
same report, and a failing classifier on `aLong` gives the failure label
with all other fields populated. -/
theorem claim_c9_classifier_witness :
    run_analysis (some constEmptyParse) clNews aLong =
        run_analysis (some constEmptyParse) clNewsIfFeed aLong ∧
    run_analysis (some constEmptyParse) clNone aLong =
      Except.ok ⟨summaryStage (some constEmptyParse) aLong,
        entitiesStage (some (constEmptyParse (aLong.take 50000))), classFailed,
        heuristic_contextual_linker FINANCIAL_METRICS (constEmptyParse (aLong.take 50000)),
        none⟩ :=
  ⟨claim_c9_classifier.1 (some constEmptyParse) clNews clNewsIfFeed aLong (by decide),
   claim_c9_classifier.2 constEmptyParse clNone aLong (by decide) rfl⟩

/-- Claim C10 (implicit behavior): for any sentence with an active
organization, every configured metric whose keyword occurs in the lowercased
sentence text contributes a fact for every qualifying match of its pattern —
so one numeric figure is emitted once per triggered metric, with the same
company and value. -/
theorem claim_c10_multi_metric (ms : List FinancialMetricSpec) (org : List Char)
    (s : Sentence) :
    ∀ m ∈ ms, (m.keywords.any (fun k => isSubstring k (lowerL s.text))) = true →
      ∀ v ∈ findAll m.pattern s.text, 2 < v.length →
        (⟨org, m.name, stripChars v⟩ : FinancialFact) ∈ sentFacts ms org s := by
  intro m hm hkw v hv hlen
  exact (mem_sentFacts_iff ms org s _).2 ⟨m, hm, hkw, v, hv, hlen, rfl⟩

/-- Witness for C10: the sentence mentioning both "revenue" and "net income"
next to the single figure `$3.5 billion` yields one fact per metric,
identical except in the metric field, and both survive into the linker's
final output. -/
theorem claim_c10_multi_metric_witness :
    (⟨"Apple".toList, "Revenue".toList, "$3.5 billion".toList⟩ : FinancialFact) ∈
        sentFacts FINANCIAL_METRICS ("Apple".toList) c10Sent ∧
    (⟨"Apple".toList, "Net Income".toList, "$3.5 billion".toList⟩ : FinancialFact) ∈
        sentFacts FINANCIAL_METRICS ("Apple".toList) c10Sent ∧
    heuristic_contextual_linker FINANCIAL_METRICS c10Doc =
      [⟨"Apple".toList, "Revenue".toList, "$3.5 billion".toList⟩,
       ⟨"Apple".toList, "Net Income".toList, "$3.5 billion".toList⟩] :=
  ⟨claim_c10_multi_metric FINANCIAL_METRICS ("Apple".toList) c10Sent
      ⟨"Revenue".toList, ["revenue".toList, "sales".toList], patAmount⟩
      (List.mem_cons_self _ _) (by decide) ("$3.5 billion".toList) (by decide) (by decide),
   claim_c10_multi_metric FINANCIAL_METRICS ("Apple".toList) c10Sent
      ⟨"Net Income".toList, ["net income".toList], patAmount⟩
      (List.mem_cons_of_mem _ (List.mem_cons_self _ _)) (by decide)
      ("$3.5 billion".toList) (by decide) (by decide),
   by decide⟩
